import Mathlib

/-!
Verification of the AgentIQ job-processing pipeline.

Shallow embedding of the batch-enrichment core: the job state machine and
progress accounting of the Celery worker (services/worker.py), the staleness
sweep (core/job_recovery.py), the tool executor (agents/tools.py), the
tool-calling agent loop, model-call retry wrapper and JSON extraction of the
enrichment agent (agents/enrichment_agent.py), the batch-submission
normalization of the API (api/main.py), and the uniqueness constraint on
enrichment results (db/models.py).
-/

/- ── Job state machine (services/worker.py, core/job_recovery.py) ────────── -/

/-- Job.status values. The source stores strings; the terminal string value
written by the soft-time-limit path is the string partial, modelled here by
the constructor partialDone (the source word is a Lean keyword). -/
inductive JobStatus
  | queued
  | running
  | completed
  | partialDone
  | failed
  | cancelled
  deriving DecidableEq, Repr

/-- Terminal statuses per the state machine queued → running →
\x7bcompleted, partialDone, failed, cancelled\x7d. -/
def JobStatus.isTerminal : JobStatus → Bool
  | .completed => true
  | .partialDone => true
  | .failed => true
  | .cancelled => true
  | _ => false

/-- The columns of the jobs row that the worker, the cancellation endpoint and
the staleness sweep read or write. Timestamp columns (started_at,
completed_at) carry no logic and are omitted. -/
structure JobState where
  status : JobStatus
  totalItems : ℕ
  completedItems : ℕ
  failedItems : ℕ
  progressPct : ℚ
  creditsUsed : ℕ
  errorMessage : Option String
  deriving DecidableEq, Repr

/-- Job row as created by POST /jobs (api/main.py create_job): status queued,
counters zero. -/
def initialJob (total : ℕ) : JobState :=
  { status := .queued, totalItems := total, completedItems := 0,
    failedItems := 0, progressPct := 0, creditsUsed := 0, errorMessage := none }

/-- Phase 1 of _run_job (services/worker.py): job.status = "running". -/
def markRunning (j : JobState) : JobState :=
  { j with status := .running }

/-- Success-branch UPDATE of _run_job (services/worker.py lines 272-281):
SET completed_items = completed_items + 1,
    progress_pct = (completed_items + 1)::float / total_items * 100,
    credits_used = credits_used + 1.
All right-hand sides read the old row values (SQL UPDATE semantics). -/
def successUpdate (j : JobState) : JobState :=
  { j with
    completedItems := j.completedItems + 1,
    progressPct := ((j.completedItems : ℚ) + 1) / (j.totalItems : ℚ) * 100,
    creditsUsed := j.creditsUsed + 1 }

/-- Failure-branch UPDATE of _run_job (services/worker.py lines 296-304):
SET failed_items = failed_items + 1,
    progress_pct = (completed_items + failed_items + 1)::float / total_items * 100. -/
def failureUpdate (j : JobState) : JobState :=
  { j with
    failedItems := j.failedItems + 1,
    progressPct :=
      ((j.completedItems : ℚ) + (j.failedItems : ℚ) + 1) / (j.totalItems : ℚ) * 100 }

/-- Phase 3 of _run_job (services/worker.py lines 318-329):
UPDATE jobs SET status = completed, progress_pct = 100.0 WHERE id = :job_id.
Note: the WHERE clause matches on id only — there is no status guard. -/
def markCompleted (j : JobState) : JobState :=
  { j with status := .completed, progressPct := 100 }

/-- _mark_job_failed (services/worker.py lines 337-352):
UPDATE ... SET status = failed ... WHERE id = :job_id AND
status IN (queued, running). -/
def markFailed (err : String) (j : JobState) : JobState :=
  if j.status = .queued ∨ j.status = .running then
    { j with status := .failed, errorMessage := some err }
  else j

/-- _mark_job_partial (services/worker.py lines 355-373):
UPDATE ... SET status = partial ... WHERE id = :job_id AND status = running. -/
def markPartial (msg : String) (j : JobState) : JobState :=
  if j.status = .running then
    { j with status := .partialDone, errorMessage := some msg }
  else j

/-- stuck_job_cleanup (core/job_recovery.py lines 44-55) applied to one row:
UPDATE jobs SET status = failed ... WHERE status IN (running, queued) AND the
row is older than the staleness cutoff. The age comparison is abstracted into
the boolean stale. -/
def stuckJobCleanup (stale : Bool) (j : JobState) : JobState :=
  if (j.status = .running ∨ j.status = .queued) ∧ stale then
    { j with status := .failed,
             errorMessage := some "Auto-reset: job exceeded maximum runtime without completing" }
  else j

/-- cancel_job (api/main.py): rejected unless status is queued or running;
otherwise sets status = cancelled. -/
def cancelJob (j : JobState) : JobState :=
  if j.status = .queued ∨ j.status = .running then
    { j with status := .cancelled }
  else j

/- Per-item step of the _run_job loop: the agent call either returns
(success branch) or raises (failure branch). -/

/-- Outcome of one agent.enrich_company call as seen by the _run_job loop:
either it returns normally or it raises an exception. -/
inductive ItemOutcome
  | success
  | failure
  deriving DecidableEq, Repr

/-- One iteration of the Phase 2 loop of _run_job. -/
def stepItem (o : ItemOutcome) (j : JobState) : JobState :=
  match o with
  | .success => successUpdate j
  | .failure => failureUpdate j

/-- The Phase 2 loop of _run_job over a list of per-item outcomes. -/
def runItems (outs : List ItemOutcome) (j : JobState) : JobState :=
  match outs with
  | [] => j
  | o :: rest => runItems rest (stepItem o j)

theorem runItems_append (a b : List ItemOutcome) (j : JobState) :
    runItems (a ++ b) j = runItems b (runItems a j) := by
  induction a generalizing j with
  | nil => rfl
  | cons o rest ih => simp [runItems, ih]

theorem stepItem_totalItems (o : ItemOutcome) (j : JobState) :
    (stepItem o j).totalItems = j.totalItems := by
  cases o <;> rfl

theorem stepItem_counts (o : ItemOutcome) (j : JobState) :
    (stepItem o j).completedItems + (stepItem o j).failedItems
      = j.completedItems + j.failedItems + 1 := by
  cases o <;> simp [stepItem, successUpdate, failureUpdate] <;> omega

theorem runItems_totalItems (outs : List ItemOutcome) (j : JobState) :
    (runItems outs j).totalItems = j.totalItems := by
  induction outs generalizing j with
  | nil => rfl
  | cons o rest ih => rw [runItems, ih, stepItem_totalItems]

theorem runItems_counts (outs : List ItemOutcome) (j : JobState) :
    (runItems outs j).completedItems + (runItems outs j).failedItems
      = j.completedItems + j.failedItems + outs.length := by
  induction outs generalizing j with
  | nil => rfl
  | cons o rest ih =>
    rw [runItems, ih, stepItem_counts]
    simp [List.length_cons]
    omega

/- ── Claims C1, C2, C4 on the job state machine ──────────────────────────── -/

/-- C1 counterexample: a job cancelled mid-run is terminal, yet the Phase 3
completion UPDATE of _run_job (WHERE id = :job_id, with no status guard)
still overwrites its status with completed. -/
theorem completion_update_overwrites_cancelled :
    ((cancelJob (markRunning (initialJob 2))).status.isTerminal = true) ∧
    (markCompleted (cancelJob (markRunning (initialJob 2)))).status ≠
      (cancelJob (markRunning (initialJob 2))).status ∧
    (markCompleted (cancelJob (markRunning (initialJob 2)))).status =
      JobStatus.completed := by
  refine ⟨rfl, ?_, rfl⟩
  intro h
  exact JobStatus.noConfusion h

/-- C1 amended: the failed marker, the partial marker and the staleness sweep
are conditional updates and leave an already-terminal status unchanged, but
the final completion update of a run is unconditional and sets the status to
completed whatever it was before. -/
theorem terminal_status_guarded_updates (j : JobState) (e m : String) (stale : Bool)
    (h : j.status.isTerminal = true) :
    markFailed e j = j ∧ markPartial m j = j ∧ stuckJobCleanup stale j = j ∧
    (markCompleted j).status = JobStatus.completed := by
  refine ⟨?_, ?_, ?_, rfl⟩ <;>
    cases hs : j.status <;>
      simp [hs, JobStatus.isTerminal] at h <;>
        simp [markFailed, markPartial, stuckJobCleanup, hs]

theorem terminal_status_guarded_updates_witness :
    markFailed "boom" (markCompleted (markRunning (initialJob 1)))
        = markCompleted (markRunning (initialJob 1)) ∧
    markPartial "late" (markCompleted (markRunning (initialJob 1)))
        = markCompleted (markRunning (initialJob 1)) ∧
    stuckJobCleanup true (markCompleted (markRunning (initialJob 1)))
        = markCompleted (markRunning (initialJob 1)) ∧
    (markCompleted (markCompleted (markRunning (initialJob 1)))).status
        = JobStatus.completed :=
  terminal_status_guarded_updates (markCompleted (markRunning (initialJob 1)))
    "boom" "late" true rfl

/-- C2 code-bug evidence: on a job of three items whose outcomes are failure,
failure, success, the success-branch UPDATE computes progress_pct from
completed_items alone and the progress fraction drops from 200/3 to 100/3,
although completed_items and failed_items each only grew. -/
theorem progress_pct_decreases_after_success :
    (runItems [ItemOutcome.failure, ItemOutcome.failure]
        (markRunning (initialJob 3))).progressPct = 200 / 3 ∧
    (runItems [ItemOutcome.failure, ItemOutcome.failure, ItemOutcome.success]
        (markRunning (initialJob 3))).progressPct = 100 / 3 ∧
    (runItems [ItemOutcome.failure, ItemOutcome.failure, ItemOutcome.success]
          (markRunning (initialJob 3))).progressPct <
      (runItems [ItemOutcome.failure, ItemOutcome.failure]
          (markRunning (initialJob 3))).progressPct := by
  refine ⟨?_, ?_, ?_⟩ <;>
    norm_num [runItems, stepItem, successUpdate, failureUpdate, markRunning, initialJob]

/-- C4: every per-item step of the _run_job loop increments exactly one of
completed_items and failed_items by exactly one, and after any prefix of the
loop over the submitted item list the two counters sum to at most
total_items. -/
theorem counters_bounded_by_total (outs : List ItemOutcome) (k : ℕ)
    (hk : k ≤ outs.length) :
    (∀ (j : JobState) (o : ItemOutcome),
        ((stepItem o j).completedItems = j.completedItems + 1 ∧
         (stepItem o j).failedItems = j.failedItems) ∨
        ((stepItem o j).completedItems = j.completedItems ∧
         (stepItem o j).failedItems = j.failedItems + 1)) ∧
    (runItems (outs.take k) (markRunning (initialJob outs.length))).completedItems
        + (runItems (outs.take k) (markRunning (initialJob outs.length))).failedItems
      ≤ (runItems (outs.take k) (markRunning (initialJob outs.length))).totalItems := by
  constructor
  · intro j o
    cases o
    · exact Or.inl ⟨rfl, rfl⟩
    · exact Or.inr ⟨rfl, rfl⟩
  · rw [runItems_counts, runItems_totalItems]
    simp only [markRunning, initialJob, List.length_take]
    omega

theorem counters_bounded_by_total_witness :
    (runItems ([ItemOutcome.success, ItemOutcome.failure].take 1)
        (markRunning (initialJob 2))).completedItems
        + (runItems ([ItemOutcome.success, ItemOutcome.failure].take 1)
            (markRunning (initialJob 2))).failedItems
      ≤ (runItems ([ItemOutcome.success, ItemOutcome.failure].take 1)
          (markRunning (initialJob 2))).totalItems :=
  (counters_bounded_by_total [ItemOutcome.success, ItemOutcome.failure] 1
    (by decide)).2

/- ── Batch submission (api/main.py create_job) ───────────────────────────── -/

/-- Characters stripped by the Python str.strip() method (ASCII range). -/
def isPyWs (c : Char) : Bool :=
  c = ' ' || c = '\t' || c = '\n' || c = '\r' || c = '\x0b' || c = '\x0c'

/-- str.strip() on a character list: drop leading and trailing whitespace. -/
def stripChars (cs : List Char) : List Char :=
  ((cs.dropWhile isPyWs).reverse.dropWhile isPyWs).reverse

/-- c.strip() as used in create_job. -/
def pyStrip (s : String) : String := String.mk (stripChars s.toList)

/-- dict.fromkeys walked left to right: a name already seen is skipped, a new
name is kept and recorded. -/
def dedupSeen (seen : List String) : List String → List String
  | [] => []
  | x :: xs => if x ∈ seen then dedupSeen seen xs else x :: dedupSeen (x :: seen) xs

/-- dict.fromkeys de-duplication: keep the first occurrence of each element,
preserving order. -/
def dedupKeepFirst (l : List String) : List String := dedupSeen [] l

/-- The list comprehension of create_job:
[c.strip() for c in req.companies if c.strip()] — strip every name and drop
names that are empty after stripping. -/
def trimmedNonEmpty (raw : List String) : List String :=
  raw.filterMap (fun c => if pyStrip c = "" then none else some (pyStrip c))

/-- companies = list(dict.fromkeys([c.strip() for c in req.companies if
c.strip()])) in create_job (api/main.py line 357). -/
def normalizeCompanies (raw : List String) : List String :=
  dedupKeepFirst (trimmedNonEmpty raw)

/-- settings.MAX_CONCURRENT_JOBS_PER_ORG (core/config.py line 65). -/
def MAX_CONCURRENT_JOBS_PER_ORG : ℕ := 3

/-- create_job (api/main.py lines 332-372): validation order is (1) empty
list, (2) raw-count ceiling of 500, (3) concurrent-job cap; only then is the
item list normalized and the Job row created with total_items equal to the
length of the normalized list. -/
def createJob (rawCompanies : List String) (activeJobs : ℕ) :
    Except String (JobState × List String) :=
  if rawCompanies.isEmpty then .error "No companies provided"
  else if rawCompanies.length > 500 then .error "Max 500 companies per job"
  else if MAX_CONCURRENT_JOBS_PER_ORG ≤ activeJobs then
    .error "Max concurrent jobs reached"
  else
    .ok (initialJob (normalizeCompanies rawCompanies).length,
         normalizeCompanies rawCompanies)

theorem dedupSeen_sublist (seen l : List String) :
    (dedupSeen seen l).Sublist l := by
  induction l generalizing seen with
  | nil => simp [dedupSeen]
  | cons x xs ih =>
    rw [dedupSeen]
    by_cases h : x ∈ seen
    · rw [if_pos h]
      exact (ih seen).trans (List.sublist_cons_self x xs)
    · rw [if_neg h]
      exact List.Sublist.cons₂ x (ih (x :: seen))

theorem mem_dedupSeen (l : List String) (seen : List String) (a : String) :
    a ∈ dedupSeen seen l ↔ (a ∈ l ∧ a ∉ seen) := by
  induction l generalizing seen with
  | nil => simp [dedupSeen]
  | cons x xs ih =>
    rw [dedupSeen]
    by_cases h : x ∈ seen
    · rw [if_pos h, ih]
      constructor
      · rintro ⟨h1, h2⟩
        exact ⟨List.mem_cons_of_mem x h1, h2⟩
      · rintro ⟨h1, h2⟩
        rcases List.mem_cons.mp h1 with rfl | h3
        · exact absurd h h2
        · exact ⟨h3, h2⟩
    · rw [if_neg h]
      rw [List.mem_cons, ih]
      constructor
      · rintro (rfl | ⟨h1, h2⟩)
        · exact ⟨List.mem_cons_self a xs, h⟩
        · exact ⟨List.mem_cons_of_mem x h1,
            fun hs => h2 (List.mem_cons_of_mem x hs)⟩
      · rintro ⟨h1, h2⟩
        rcases List.mem_cons.mp h1 with rfl | h3
        · exact Or.inl rfl
        · by_cases hax : a = x
          · exact Or.inl hax
          · refine Or.inr ⟨h3, fun hs => ?_⟩
            rcases List.mem_cons.mp hs with h4 | h4
            · exact hax h4
            · exact h2 h4

theorem dedupSeen_nodup (l seen : List String) :
    (dedupSeen seen l).Nodup := by
  induction l generalizing seen with
  | nil => simp [dedupSeen]
  | cons x xs ih =>
    rw [dedupSeen]
    by_cases h : x ∈ seen
    · rw [if_pos h]
      exact ih seen
    · rw [if_neg h]
      refine List.nodup_cons.mpr ⟨?_, ih (x :: seen)⟩
      intro hx
      exact ((mem_dedupSeen xs (x :: seen) x).mp hx).2 (List.mem_cons_self x seen)

theorem dedupKeepFirst_sublist (l : List String) :
    (dedupKeepFirst l).Sublist l :=
  dedupSeen_sublist [] l

theorem dedupKeepFirst_nodup (l : List String) :
    (dedupKeepFirst l).Nodup :=
  dedupSeen_nodup l []

theorem dedupKeepFirst_toFinset (l : List String) :
    (dedupKeepFirst l).toFinset = l.toFinset := by
  ext a
  simp only [List.mem_toFinset, dedupKeepFirst, mem_dedupSeen, List.not_mem_nil,
    not_false_iff, and_true]
/- ── EnrichmentResult uniqueness (db/models.py) ──────────────────────────── -/

/-- The two columns of enrichment_results constrained by
UniqueConstraint("job_id", "input_name", name="uq_results_job_company")
(db/models.py lines 183-195). job_id is a nullable foreign key; the remaining
columns carry no constraint logic and are omitted. -/
structure ResultRow where
  jobId : Option ℕ
  inputName : String
  deriving DecidableEq, Repr

/-- Violation predicate of the unique constraint: two rows conflict when both
have the same non-null job_id and the same input_name (SQL UNIQUE treats
NULLs as distinct). -/
def rowsConflict (a b : ResultRow) : Bool :=
  match a.jobId, b.jobId with
  | some i, some j => i == j && a.inputName == b.inputName
  | _, _ => false

/-- Modelled from the spec: the database engine enforcing the declared
uq_results_job_company constraint on INSERT — a conflicting insert raises an
integrity error, a non-conflicting insert appends the row. -/
def insertResult (t : List ResultRow) (r : ResultRow) :
    Except String (List ResultRow) :=
  if t.any (fun r0 => rowsConflict r0 r) then .error "uq_results_job_company"
  else .ok (t ++ [r])

/-- At most one row per (job_id, input_name) pair over a whole table. -/
def uniquePerJobName (t : List ResultRow) : Prop :=
  List.Pairwise (fun a b => rowsConflict a b = false) t

/-- C9: duplicate occurrences of one name within a submitted batch are removed
at submission time (the normalized list has no duplicates), and every insert
that the unique constraint lets through preserves the at-most-one-row
invariant per (job_id, input_name) pair. -/
theorem results_unique_per_job_name :
    (∀ raw : List String, (normalizeCompanies raw).Nodup) ∧
    (∀ (t : List ResultRow) (r : ResultRow) (t2 : List ResultRow),
      uniquePerJobName t → insertResult t r = Except.ok t2 →
        uniquePerJobName t2) := by
  constructor
  · intro raw
    exact dedupKeepFirst_nodup _
  · intro t r t2 hinv hok
    unfold insertResult at hok
    split at hok
    · exact absurd hok (by simp)
    · rename_i hany
      have ht2 : t2 = t ++ [r] := by
        injection hok with h
        exact h.symm
      subst ht2
      rw [uniquePerJobName, List.pairwise_append]
      refine ⟨hinv, List.pairwise_singleton _ _, ?_⟩
      intro a ha b hb
      have hb1 : b = r := by simpa using hb
      subst hb1
      have := List.any_eq_false.mp (Bool.not_eq_true _ ▸ hany) a ha
      simpa using this

theorem results_unique_per_job_name_witness :
    ((normalizeCompanies ["Acme", " Acme ", "", "Globex"]).Nodup) ∧
    uniquePerJobName [ResultRow.mk (some 1) "Acme"] :=
  ⟨results_unique_per_job_name.1 ["Acme", " Acme ", "", "Globex"],
   results_unique_per_job_name.2 [] (ResultRow.mk (some 1) "Acme")
     [ResultRow.mk (some 1) "Acme"] (List.Pairwise.nil) rfl⟩

/-- C10: the 500-item ceiling is checked against the raw submitted list before
normalization, so any submission of more than 500 raw entries is rejected; an
accepted submission gets total_items equal to the length of the normalized
list, which is the trimmed non-empty names de-duplicated preserving
first-occurrence order, so total_items equals the number of distinct trimmed
non-empty names. -/
theorem create_job_normalization (raw : List String) (active : ℕ) :
    (raw.length > 500 → createJob raw active = Except.error "Max 500 companies per job") ∧
    (raw ≠ [] → raw.length ≤ 500 → active < MAX_CONCURRENT_JOBS_PER_ORG →
      createJob raw active =
        Except.ok (initialJob (normalizeCompanies raw).length, normalizeCompanies raw) ∧
      (normalizeCompanies raw).Sublist (trimmedNonEmpty raw) ∧
      (normalizeCompanies raw).Nodup ∧
      (initialJob (normalizeCompanies raw).length).totalItems
        = (trimmedNonEmpty raw).toFinset.card) := by
  constructor
  · intro hlen
    have hne : ¬ raw.isEmpty := by
      cases raw
      · simp at hlen
      · simp
    rw [createJob, if_neg hne, if_pos hlen]
  · intro hne hlen hcap
    have hne2 : ¬ raw.isEmpty := by
      cases raw
      · exact absurd rfl hne
      · simp
    refine ⟨?_, dedupKeepFirst_sublist _, dedupKeepFirst_nodup _, ?_⟩
    · rw [createJob, if_neg hne2, if_neg (by omega), if_neg (by omega)]
    · show (normalizeCompanies raw).length = (trimmedNonEmpty raw).toFinset.card
      rw [← dedupKeepFirst_toFinset (trimmedNonEmpty raw)]
      exact (List.toFinset_card_of_nodup (dedupKeepFirst_nodup (trimmedNonEmpty raw))).symm

theorem create_job_normalization_witness :
    createJob (List.replicate 501 "Acme") 0 = Except.error "Max 500 companies per job" ∧
    createJob ["Acme", " Acme ", "", "Globex"] 0 =
      Except.ok (initialJob 2, ["Acme", "Globex"]) :=
  ⟨(create_job_normalization (List.replicate 501 "Acme") 0).1
     (by simp only [List.length_replicate]; decide),
   ((create_job_normalization ["Acme", " Acme ", "", "Globex"] 0).2
     (by decide) (by decide) (by decide)).1⟩

/- ── Tool executor (agents/tools.py) ─────────────────────────────────────── -/

/-- A JSON-decoded Python value as passed in a tool-argument mapping. -/
inductive PyVal
  | str (s : String)
  | int (n : Int)
  | other
  deriving DecidableEq, Repr

/-- Python f-string rendering of an argument value. -/
def pyFormat : PyVal → String
  | .str s => s
  | .int n => toString n
  | .other => "object"

/-- The outbound network effects of the four tools. Each tool body in
agents/tools.py is wrapped in try/except returning an error string, so from
the callers viewpoint the body is a total String-valued function of its
arguments; the network itself is this opaque parameter. -/
structure NetEffects where
  searchWebBody : PyVal → PyVal → String
  scrapeWebsiteBody : String → PyVal → String
  findCompanyWebsiteBody : PyVal → String

/-- search_web (agents/tools.py lines 18-36): fully try/except-wrapped, never
raises. -/
def search_web (net : NetEffects) (query numResults : PyVal) : String :=
  net.searchWebBody query numResults

/-- scrape_website (agents/tools.py lines 39-58): the url.startswith call on
line 40 sits outside the try block, so a non-string url raises
AttributeError; with a string url the body is try/except-wrapped and total. -/
def scrape_website (net : NetEffects) (url maxChars : PyVal) :
    Except String String :=
  match url with
  | .str u => .ok (net.scrapeWebsiteBody u maxChars)
  | _ => .error "AttributeError: object has no attribute startswith"

/-- find_company_website (agents/tools.py lines 61-74): fully
try/except-wrapped, never raises. -/
def find_company_website (net : NetEffects) (companyName : PyVal) : String :=
  net.findCompanyWebsiteBody companyName

/-- get_linkedin_info (agents/tools.py lines 77-78): delegates to search_web
with a site-scoped query and 3 results. -/
def get_linkedin_info (net : NetEffects) (companyName : PyVal) : String :=
  search_web net (.str ("site:linkedin.com/company " ++ pyFormat companyName)) (.int 3)

/-- The tool_map of execute_tool (agents/tools.py lines 144-149). Each lambda
indexes the argument mapping; a missing required key raises KeyError, and
optional keys fall back to their defaults (5 and 6000). -/
def tool_map : List (String × (NetEffects → List (String × PyVal) → Except String String)) :=
  [("search_web", fun net i =>
      match List.lookup "query" i with
      | none => .error "KeyError: query"
      | some q => .ok (search_web net q ((List.lookup "num_results" i).getD (.int 5)))),
   ("scrape_website", fun net i =>
      match List.lookup "url" i with
      | none => .error "KeyError: url"
      | some u => scrape_website net u ((List.lookup "max_chars" i).getD (.int 6000))),
   ("find_company_website", fun net i =>
      match List.lookup "company_name" i with
      | none => .error "KeyError: company_name"
      | some c => .ok (find_company_website net c)),
   ("get_linkedin_info", fun net i =>
      match List.lookup "company_name" i with
      | none => .error "KeyError: company_name"
      | some c => .ok (get_linkedin_info net c))]

/-- execute_tool (agents/tools.py lines 143-156): unknown tool names yield a
descriptive string, and any exception escaping the selected handler is caught
and converted into a Tool error string. The String return type (not Except)
is the never-raises guarantee. -/
def execute_tool (net : NetEffects) (toolName : String)
    (toolInput : List (String × PyVal)) : String :=
  match List.lookup toolName tool_map with
  | none => "Unknown tool: " ++ toolName
  | some handler =>
    match handler net toolInput with
    | .ok s => s
    | .error e => "Tool error (" ++ toolName ++ "): " ++ e

/-- C5: for every tool name and argument mapping the executor returns a plain
string (it is a total String-valued function): an unknown name yields the
Unknown-tool string, and whatever the selected handler does — return a string
or raise — the executor returns that string or the corresponding Tool-error
string. -/
theorem execute_tool_never_raises (net : NetEffects) (toolName : String)
    (toolInput : List (String × PyVal)) :
    (List.lookup toolName tool_map = none →
      execute_tool net toolName toolInput = "Unknown tool: " ++ toolName) ∧
    (∀ handler, List.lookup toolName tool_map = some handler →
      (∀ e, handler net toolInput = Except.error e →
        execute_tool net toolName toolInput = "Tool error (" ++ toolName ++ "): " ++ e) ∧
      (∀ s, handler net toolInput = Except.ok s →
        execute_tool net toolName toolInput = s)) := by
  constructor
  · intro hnone
    rw [execute_tool, hnone]
  · intro handler hsome
    constructor
    · intro e herr
      simp [execute_tool, hsome, herr]
    · intro s hok
      simp [execute_tool, hsome, hok]

/-- A network that answers every lookup with the empty string, for concrete
evaluation. -/
def silentNet : NetEffects :=
  { searchWebBody := fun _ _ => "",
    scrapeWebsiteBody := fun _ _ => "",
    findCompanyWebsiteBody := fun _ => "" }

theorem execute_tool_never_raises_witness :
    execute_tool silentNet "make_coffee" [] = "Unknown tool: make_coffee" ∧
    execute_tool silentNet "search_web" [] = "Tool error (search_web): KeyError: query" :=
  ⟨(execute_tool_never_raises silentNet "make_coffee" []).1 rfl,
   ((execute_tool_never_raises silentNet "search_web" []).2 _ rfl).1
     "KeyError: query" rfl⟩

/- ── Model-call retry wrapper (agents/enrichment_agent.py lines 194-226) ── -/

/-- Outcome of one client.chat.completions.create call as classified by the
except clauses of _call_groq_with_retry. -/
inductive GroqCallOutcome (α : Type)
  | ok (r : α)
  | timeout
  | rateLimit
  | apiError
  | other
  deriving DecidableEq, Repr

/-- self.max_retries (agents/enrichment_agent.py line 91). -/
def GROQ_MAX_RETRIES : ℕ := 3

/-- self.base_delay = 2.0 seconds (agents/enrichment_agent.py line 92). -/
def GROQ_BASE_DELAY : ℚ := 2

/-- The for-attempt-in-range loop of _call_groq_with_retry, driven by a script
of call outcomes (one per attempt made). Returns the response (if any) and
the list of sleeps performed, in seconds:
timeout and rate-limit wait base * 2 ^ attempt; APIError waits the plain base
delay while attempt < max_retries - 1 and otherwise returns None at once; any
other exception returns None at once; falling off the loop returns None. -/
def callGroqRetryGo {α : Type} (base : ℚ) (maxRetries : ℕ) :
    ℕ → List (GroqCallOutcome α) → Option α × List ℚ
  | _, [] => (none, [])
  | attempt, o :: rest =>
    if attempt < maxRetries then
      match o with
      | .ok r => (some r, [])
      | .timeout =>
        let rec1 := callGroqRetryGo base maxRetries (attempt + 1) rest
        (rec1.1, base * 2 ^ attempt :: rec1.2)
      | .rateLimit =>
        let rec1 := callGroqRetryGo base maxRetries (attempt + 1) rest
        (rec1.1, base * 2 ^ attempt :: rec1.2)
      | .apiError =>
        if attempt < maxRetries - 1 then
          let rec1 := callGroqRetryGo base maxRetries (attempt + 1) rest
          (rec1.1, base :: rec1.2)
        else (none, [])
      | .other => (none, [])
    else (none, [])

/-- _call_groq_with_retry with the configured constants. -/
def callGroqWithRetry {α : Type} (outs : List (GroqCallOutcome α)) :
    Option α × List ℚ :=
  callGroqRetryGo GROQ_BASE_DELAY GROQ_MAX_RETRIES 0 outs

/-- C8 counterexample: after a non-transient APIError on the first and second
attempts, a third call is still made and its response is returned — the
wrapper does not give up after a single retry as the claim states. -/
theorem api_error_not_given_up_after_one_retry :
    callGroqWithRetry
        [GroqCallOutcome.apiError, GroqCallOutcome.apiError, GroqCallOutcome.ok 7]
      = (some 7, [GROQ_BASE_DELAY, GROQ_BASE_DELAY]) := rfl

/-- C8 amended: a success is returned at once with no sleeps; timeouts and
rate limits are retried across the 3 attempts with exponential backoff 2, 4
then 8 seconds seeded at the 2-second base delay; a non-transient APIError is
also retried up to the same 3-attempt cap, sleeping the plain base delay,
except that on the final attempt it returns no response at once; any other
unexpected error aborts immediately with no response; exhausting all attempts
yields no response. -/
theorem call_groq_retry_policy (α : Type) (r : α) (rest : List (GroqCallOutcome α)) :
    callGroqWithRetry (GroqCallOutcome.ok r :: rest) = (some r, []) ∧
    callGroqWithRetry (List.replicate 3 (GroqCallOutcome.timeout : GroqCallOutcome α))
      = (none, [2, 4, 8]) ∧
    callGroqWithRetry (List.replicate 3 (GroqCallOutcome.rateLimit : GroqCallOutcome α))
      = (none, [2, 4, 8]) ∧
    callGroqWithRetry (List.replicate 3 (GroqCallOutcome.apiError : GroqCallOutcome α))
      = (none, [2, 2]) ∧
    callGroqWithRetry (GroqCallOutcome.other :: rest) = (none, []) := by
  refine ⟨rfl, ?_, ?_, rfl, rfl⟩ <;>
    · norm_num [callGroqWithRetry, callGroqRetryGo, GROQ_BASE_DELAY,
        GROQ_MAX_RETRIES, List.replicate]

/- ── Agent tool-calling loop (agents/enrichment_agent.py lines 95-192) ───── -/

/-- One requested tool call from a model response (tc.id, tc.function.name,
tc.function.arguments). -/
structure ToolCallReq where
  id : String
  name : String
  arguments : String
  deriving DecidableEq, Repr

/-- One model response as consumed by the loop: finish reason, optional text
content, requested tool calls and token usage (usage is modelled as always
present, with possibly-zero counts). -/
structure ModelTurn where
  finishReason : String
  content : Option String
  toolCalls : List ToolCallReq
  promptTokens : ℕ
  completionTokens : ℕ
  deriving DecidableEq, Repr

/-- The quantities enrich_company accumulates across the loop. -/
structure AgentLoopResult where
  finalText : String
  modelCalls : ℕ
  toolCallsCount : ℕ
  totalTokens : ℕ
  deriving DecidableEq, Repr

/-- settings.GROQ_MAX_TOOL_ITERATIONS (core/config.py line 25), read into
self.max_iterations. -/
def GROQ_MAX_TOOL_ITERATIONS : ℕ := 15

/-- The while-iteration loop of enrich_company (lines 124-169), driven by a
script listing what _call_groq_with_retry returns on each call (none = the
retry wrapper exhausted or aborted). First argument is the remaining
iteration budget max_iterations - iteration. Per iteration: one model call;
none breaks; finish stop captures content-or-empty and breaks; finish
tool_calls with a nonempty call list executes the tools and continues; any
other finish captures content when it is truthy and breaks. -/
def enrichLoopGo : ℕ → List (Option ModelTurn) → String → ℕ → ℕ → ℕ → AgentLoopResult
  | 0, _, ft, calls, tcc, tok => ⟨ft, calls, tcc, tok⟩
  | _ + 1, [], ft, calls, tcc, tok => ⟨ft, calls + 1, tcc, tok⟩
  | _ + 1, none :: _, ft, calls, tcc, tok => ⟨ft, calls + 1, tcc, tok⟩
  | n + 1, some m :: rest, ft, calls, tcc, tok =>
    if m.finishReason = "stop" then
      ⟨m.content.getD "", calls + 1, tcc, tok + m.promptTokens + m.completionTokens⟩
    else if m.finishReason = "tool_calls" ∧ m.toolCalls ≠ [] then
      enrichLoopGo n rest ft (calls + 1) (tcc + m.toolCalls.length)
        (tok + m.promptTokens + m.completionTokens)
    else
      match m.content with
      | some c =>
        if c = "" then ⟨ft, calls + 1, tcc, tok + m.promptTokens + m.completionTokens⟩
        else ⟨c, calls + 1, tcc, tok + m.promptTokens + m.completionTokens⟩
      | none => ⟨ft, calls + 1, tcc, tok + m.promptTokens + m.completionTokens⟩

/-- The enrich_company loop started from the initial accumulators:
final_text = "", iteration = 0, tool_calls_count = 0, total_tokens = 0. -/
def enrichCompanyLoop (resps : List (Option ModelTurn)) : AgentLoopResult :=
  enrichLoopGo GROQ_MAX_TOOL_ITERATIONS resps "" 0 0 0

theorem enrichLoopGo_calls_le (n : ℕ) (resps : List (Option ModelTurn))
    (ft : String) (calls tcc tok : ℕ) :
    (enrichLoopGo n resps ft calls tcc tok).modelCalls ≤ calls + n := by
  induction n generalizing resps ft calls tcc tok with
  | zero =>
    cases resps with
    | nil => exact Nat.le_refl _
    | cons resp rest => exact Nat.le_refl _
  | succ n ih =>
    cases resps with
    | nil =>
      show calls + 1 ≤ calls + (n + 1)
      omega
    | cons resp rest =>
      cases resp with
      | none =>
        show calls + 1 ≤ calls + (n + 1)
        omega
      | some m =>
        rw [enrichLoopGo]
        by_cases h1 : m.finishReason = "stop"
        · rw [if_pos h1]
          show calls + 1 ≤ calls + (n + 1)
          omega
        · rw [if_neg h1]
          by_cases h2 : m.finishReason = "tool_calls" ∧ m.toolCalls ≠ []
          · rw [if_pos h2]
            have := ih rest ft (calls + 1) (tcc + m.toolCalls.length)
              (tok + m.promptTokens + m.completionTokens)
            omega
          · rw [if_neg h2]
            cases hc : m.content with
            | none =>
              simp only [hc]
              show calls + 1 ≤ calls + (n + 1)
              omega
            | some c =>
              simp only [hc]
              by_cases h3 : c = ""
              · rw [if_pos h3]
                show calls + 1 ≤ calls + (n + 1)
                omega
              · rw [if_neg h3]
                show calls + 1 ≤ calls + (n + 1)
                omega

theorem enrichLoopGo_no_stop_text (n : ℕ) (resps : List (Option ModelTurn))
    (ft : String) (calls tcc tok : ℕ)
    (h : ∀ r ∈ resps, ∀ m, r = some m →
        m.finishReason = "tool_calls" ∧ m.toolCalls ≠ []) :
    (enrichLoopGo n resps ft calls tcc tok).finalText = ft := by
  induction n generalizing resps ft calls tcc tok with
  | zero =>
    cases resps with
    | nil => rfl
    | cons resp rest => rfl
  | succ n ih =>
    cases resps with
    | nil => rfl
    | cons resp rest =>
      cases resp with
      | none => rfl
      | some m =>
        have hm := h (some m) (List.mem_cons_self _ _) m rfl
        have h1 : ¬ m.finishReason = "stop" := by
          rw [hm.1]
          decide
        rw [enrichLoopGo, if_neg h1, if_pos hm]
        exact ih rest ft (calls + 1) (tcc + m.toolCalls.length)
          (tok + m.promptTokens + m.completionTokens)
          (fun r hr => h r (List.mem_cons_of_mem _ hr))

/-- C6: for every response script the loop makes at most
GROQ_MAX_TOOL_ITERATIONS model calls (one per iteration), and when no
response with finish reason stop occurs — every delivered response keeps
requesting tools — the loop still terminates and the final text is the
initial best-effort empty string. -/
theorem agent_loop_iteration_cap (resps : List (Option ModelTurn)) :
    (enrichCompanyLoop resps).modelCalls ≤ GROQ_MAX_TOOL_ITERATIONS ∧
    ((∀ r ∈ resps, ∀ m, r = some m →
        m.finishReason = "tool_calls" ∧ m.toolCalls ≠ []) →
      (enrichCompanyLoop resps).finalText = "") := by
  constructor
  · have := enrichLoopGo_calls_le GROQ_MAX_TOOL_ITERATIONS resps "" 0 0 0
    simpa [enrichCompanyLoop] using this
  · intro h
    exact enrichLoopGo_no_stop_text GROQ_MAX_TOOL_ITERATIONS resps "" 0 0 0 h

/-- A model turn that only ever asks for another tool call. -/
def toolOnlyTurn : ModelTurn :=
  { finishReason := "tool_calls", content := some "",
    toolCalls := [{ id := "call_1", name := "search_web",
                    arguments := "\x7b\x22query\x22: \x22acme\x22\x7d" }],
    promptTokens := 100, completionTokens := 20 }

theorem agent_loop_iteration_cap_witness :
    (enrichCompanyLoop (List.replicate 20 (some toolOnlyTurn))).modelCalls
        ≤ GROQ_MAX_TOOL_ITERATIONS ∧
    (enrichCompanyLoop (List.replicate 20 (some toolOnlyTurn))).finalText = "" :=
  ⟨(agent_loop_iteration_cap (List.replicate 20 (some toolOnlyTurn))).1,
   (agent_loop_iteration_cap (List.replicate 20 (some toolOnlyTurn))).2
     (by
       intro r hr m hm
       rw [List.eq_of_mem_replicate hr] at hm
       cases hm
       exact ⟨rfl, by decide⟩)⟩

/- ── Usage-record accounting (enrichment_agent.py + worker.py) ───────────── -/

/-- Rows persisted durably (committed) for one processed item. -/
structure PersistedEffects where
  usageRecords : ℕ
  resultRows : ℕ
  deriving DecidableEq, Repr

/-- enrich_company persistence (agents/enrichment_agent.py lines 173-189):
every completed invocation adds exactly one EnrichmentResult row (in
_save_result) and exactly one UsageLog row, then commits. -/
def agentInvocationEffects : PersistedEffects :=
  { usageRecords := 1, resultRows := 1 }

/-- Per-item persistence of the _run_job loop (services/worker.py lines
250-304). Success branch: the committed agent effects plus one additional
UsageLog added by the worker itself (lines 261-269). Failure branch (the
agent raised, so its uncommitted session adds are rolled back): the worker
adds one synthetic failed EnrichmentResult and no usage record. -/
def workerItemEffects : ItemOutcome → PersistedEffects
  | .success =>
    { usageRecords := agentInvocationEffects.usageRecords + 1,
      resultRows := agentInvocationEffects.resultRows }
  | .failure => { usageRecords := 0, resultRows := 1 }

/-- Componentwise sum of persisted effects. -/
def addEffects (a b : PersistedEffects) : PersistedEffects :=
  { usageRecords := a.usageRecords + b.usageRecords,
    resultRows := a.resultRows + b.resultRows }

/-- Total rows persisted by a whole _run_job loop. -/
def workerRunEffects : List ItemOutcome → PersistedEffects
  | [] => { usageRecords := 0, resultRows := 0 }
  | o :: rest => addEffects (workerItemEffects o) (workerRunEffects rest)

/-- C3 counterexample: a successfully processed batch item appends two
UsageRecord rows — one by the agent inside enrich_company and a second by the
orchestrator success branch — not exactly one. -/
theorem successful_item_two_usage_records :
    (workerItemEffects ItemOutcome.success).usageRecords = 2 ∧
    (workerItemEffects ItemOutcome.success).usageRecords ≠ 1 := by
  exact ⟨rfl, by decide⟩

/-- C3 amended: each completed agent invocation persists exactly one
EnrichmentResult row and one UsageRecord row, but the batch orchestrator
appends an additional usage record for every successful item; over a batch
run the usage records number twice the successful items (and zero accrue for
an item whose agent invocation raised), while result rows number exactly one
per item. -/
theorem usage_records_double_per_success (outs : List ItemOutcome) :
    (workerRunEffects outs).usageRecords = 2 * outs.count ItemOutcome.success ∧
    (workerRunEffects outs).resultRows = outs.length := by
  induction outs with
  | nil => exact ⟨rfl, rfl⟩
  | cons o rest ih =>
    cases o <;>
      simp [workerRunEffects, addEffects, workerItemEffects,
        agentInvocationEffects, List.count_cons, ih.1, ih.2] <;>
      omega

/- ── JSON extraction (agents/enrichment_agent.py _extract_json, lines
269-301). The model of json.loads is a standard JSON validity checker over
character lists (object/array/string/number/true/false/null plus the NaN and
Infinity extensions Python accepts by default), fuel-bounded with ample fuel.
The three regular expressions are modelled by equivalent explicit scans. ── -/

/-- JSON whitespace as skipped by json.loads. -/
def isJsonWs (c : Char) : Bool :=
  c = ' ' || c = '\t' || c = '\n' || c = '\r'

/-- Skip JSON whitespace. -/
def skipJWs (cs : List Char) : List Char := cs.dropWhile isJsonWs

/-- Hexadecimal digit test for string escapes. -/
def isHexChar (c : Char) : Bool :=
  c.isDigit || ('a' ≤ c && c ≤ 'f') || ('A' ≤ c && c ≤ 'F')

/-- Consume the body of a JSON string after the opening quote, returning the
input after the closing quote. Unescaped control characters are rejected
(json.loads strict mode); escapes are the eight single-character ones plus
uXXXX. -/
def parseStringBody : List Char → Option (List Char)
  | [] => none
  | c :: rest =>
    if c = '"' then some rest
    else if c = '\\' then
      match rest with
      | [] => none
      | e :: rest2 =>
        if e = '"' || e = '\\' || e = '/' || e = 'b' || e = 'f' || e = 'n'
            || e = 'r' || e = 't' then
          parseStringBody rest2
        else if e = 'u' then
          match rest2 with
          | h1 :: h2 :: h3 :: h4 :: rest3 =>
            if isHexChar h1 && isHexChar h2 && isHexChar h3 && isHexChar h4 then
              parseStringBody rest3
            else none
          | _ => none
        else none
    else if c.toNat < 32 then none
    else parseStringBody rest

/-- Integer part of the json NUMBER pattern: 0 or [1-9] followed by digits. -/
def parseIntPart : List Char → Option (List Char)
  | [] => none
  | c :: rest =>
    if c = '0' then some rest
    else if c.isDigit then some (rest.dropWhile Char.isDigit)
    else none

/-- Optional fractional part: a dot followed by at least one digit, or
nothing consumed. -/
def parseFracPart (cs : List Char) : List Char :=
  match cs with
  | '.' :: c :: rest =>
    if c.isDigit then rest.dropWhile Char.isDigit else cs
  | _ => cs

/-- Optional exponent part: e or E, optional sign, at least one digit, or
nothing consumed. -/
def parseExpPart (cs : List Char) : List Char :=
  match cs with
  | [] => []
  | e :: rest =>
    if e = 'e' || e = 'E' then
      match rest with
      | [] => e :: rest
      | s :: rest2 =>
        if s = '+' || s = '-' then
          match rest2 with
          | d :: rest3 =>
            if d.isDigit then rest3.dropWhile Char.isDigit else e :: rest
          | [] => e :: rest
        else if s.isDigit then rest2.dropWhile Char.isDigit
        else e :: rest
    else e :: rest

/-- A JSON number, including the Infinity extension after a minus sign. -/
def parseNumber (cs : List Char) : Option (List Char) :=
  match cs with
  | '-' :: 'I' :: 'n' :: 'f' :: 'i' :: 'n' :: 'i' :: 't' :: 'y' :: r => some r
  | '-' :: r =>
    match parseIntPart r with
    | none => none
    | some r1 => some (parseExpPart (parseFracPart r1))
  | _ =>
    match parseIntPart cs with
    | none => none
    | some r1 => some (parseExpPart (parseFracPart r1))

mutual

/-- Consume one JSON value (leading whitespace allowed), returning the
remaining input. -/
def parseValue : ℕ → List Char → Option (List Char)
  | 0, _ => none
  | fuel + 1, cs =>
    match skipJWs cs with
    | [] => none
    | c :: rest =>
      if c = '{' then parseObjectBody fuel rest
      else if c = '[' then parseArrayBody fuel rest
      else if c = '"' then parseStringBody rest
      else if c = 't' then
        match rest with
        | 'r' :: 'u' :: 'e' :: r => some r
        | _ => none
      else if c = 'f' then
        match rest with
        | 'a' :: 'l' :: 's' :: 'e' :: r => some r
        | _ => none
      else if c = 'n' then
        match rest with
        | 'u' :: 'l' :: 'l' :: r => some r
        | _ => none
      else if c = 'N' then
        match rest with
        | 'a' :: 'N' :: r => some r
        | _ => none
      else if c = 'I' then
        match rest with
        | 'n' :: 'f' :: 'i' :: 'n' :: 'i' :: 't' :: 'y' :: r => some r
        | _ => none
      else parseNumber (c :: rest)

/-- Consume an object body after the opening brace. -/
def parseObjectBody : ℕ → List Char → Option (List Char)
  | 0, _ => none
  | fuel + 1, cs =>
    match skipJWs cs with
    | '}' :: r => some r
    | cs2 => parseMembers fuel cs2

/-- Consume one or more key-value members and the closing brace. -/
def parseMembers : ℕ → List Char → Option (List Char)
  | 0, _ => none
  | fuel + 1, cs =>
    match cs with
    | '"' :: r =>
      match parseStringBody r with
      | none => none
      | some afterKey =>
        match skipJWs afterKey with
        | ':' :: r2 =>
          match parseValue fuel r2 with
          | none => none
          | some afterVal =>
            match skipJWs afterVal with
            | ',' :: r3 => parseMembers fuel (skipJWs r3)
            | '}' :: r3 => some r3
            | _ => none
        | _ => none
    | _ => none

/-- Consume an array body after the opening bracket. -/
def parseArrayBody : ℕ → List Char → Option (List Char)
  | 0, _ => none
  | fuel + 1, cs =>
    match skipJWs cs with
    | ']' :: r => some r
    | cs2 => parseElements fuel cs2

/-- Consume one or more array elements and the closing bracket. -/
def parseElements : ℕ → List Char → Option (List Char)
  | 0, _ => none
  | fuel + 1, cs =>
    match parseValue fuel cs with
    | none => none
    | some afterVal =>
      match skipJWs afterVal with
      | ',' :: r => parseElements fuel r
      | ']' :: r => some r
      | _ => none

end

/-- Ample fuel: every parser call consumes input before recursing, so twice
the length plus a constant always suffices. -/
def jsonFuel (cs : List Char) : ℕ := 2 * cs.length + 8

/-- json.loads succeeds on the text: one value, then only whitespace. -/
def jsonLoadsOk (cs : List Char) : Bool :=
  match parseValue (jsonFuel cs) cs with
  | some rest => (skipJWs rest).isEmpty
  | none => false

/-- json.loads on a whole string. -/
def jsonParses (s : String) : Bool := jsonLoadsOk s.toList

/- Regex models for _extract_json. -/

/-- Strip trailing Python whitespace (the .rstrip() call). -/
def rstripWs (cs : List Char) : List Char :=
  (cs.reverse.dropWhile isPyWs).reverse

/-- Strip trailing commas (the .rstrip with a comma argument). -/
def rstripCommas (cs : List Char) : List Char :=
  (cs.reverse.dropWhile (fun c => c == ',')).reverse

/-- Does the trimmed text begin with an opening brace (text.startswith)? -/
def headBrace (cs : List Char) : Bool :=
  match cs with
  | c :: _ => c == '{'
  | [] => false

/-- Regex brace-to-last-brace with DOTALL: the match runs from the first
opening brace to the last closing brace of the text (greedy), when a closing
brace occurs after an opening one. -/
def braceSpan (cs : List Char) : Option (List Char) :=
  match ((cs.dropWhile (fun c => c != '{')).reverse.dropWhile
      (fun c => c != '}')).reverse with
  | [] => none
  | cand => some cand

/-- Regex brace-to-end with DOTALL, then rstrip whitespace, strip trailing
commas and append a newline and a closing brace — the truncation repair. -/
def repairCandidate (cs : List Char) : Option (List Char) :=
  match cs.dropWhile (fun c => c != '{') with
  | [] => none
  | fromBrace => some (rstripCommas (rstripWs fromBrace) ++ ['\n', '}'])

/-- The backtick character, written by code point. -/
def tick : Char := Char.ofNat 96

/-- Consume a three-backtick fence. -/
def dropTicks (cs : List Char) : Option (List Char) :=
  match cs with
  | a :: b :: c :: rest =>
    if a = tick && b = tick && c = tick then some rest else none
  | _ => none

/-- Consume the optional json language tag of the fence. -/
def dropJsonTag (cs : List Char) : List Char :=
  match cs with
  | 'j' :: 's' :: 'o' :: 'n' :: rest => rest
  | _ => cs

/-- After a candidate closing brace: whitespace then a closing fence? -/
def closesFence (cs : List Char) : Bool :=
  match dropTicks (cs.dropWhile isPyWs) with
  | some _ => true
  | none => false

/-- Lazy search of the regex: the earliest closing brace whose suffix closes
the fence ends the capture. -/
def findFenceClose (acc : List Char) : List Char → Option (List Char)
  | [] => none
  | c :: rest =>
    if c = '}' && closesFence rest then some ('{' :: (acc.reverse ++ ['}']))
    else findFenceClose (c :: acc) rest

/-- Try the fenced-block regex anchored at this position. -/
def fenceMatchAt (cs : List Char) : Option (List Char) :=
  match dropTicks cs with
  | none => none
  | some r0 =>
    match (dropJsonTag r0).dropWhile isPyWs with
    | '{' :: r3 => findFenceClose [] r3
    | _ => none

/-- re.search of the fenced-block pattern: leftmost position wins. -/
def fencedSearch : List Char → Option (List Char)
  | [] => none
  | c :: rest =>
    match fenceMatchAt (c :: rest) with
    | some cap => some cap
    | none => fencedSearch rest


/-- _extract_json steps (c) and (d): try the brace-span candidate, then the
truncation repair. -/
def extractTailD (cs : List Char) : Option (List Char) :=
  match repairCandidate cs with
  | some cand => if jsonLoadsOk cand then some cand else none
  | none => none

/-- _extract_json step (c) with fallthrough to (d). -/
def extractTailCD (cs : List Char) : Option (List Char) :=
  match braceSpan cs with
  | some cand => if jsonLoadsOk cand then some cand else extractTailD cs
  | none => extractTailD cs

/-- _extract_json (agents/enrichment_agent.py lines 269-301), mirroring the
Python control flow: empty text gives nothing; the text is trimmed; then (a)
the whole text when it starts with a brace, (b) the fenced-block capture, (c)
the first-to-last brace span, (d) the truncation repair are each tried in
order, each kept only if json.loads accepts it. -/
def extractJsonL (cs0 : List Char) : Option (List Char) :=
  if cs0.isEmpty then none
  else if headBrace (stripChars cs0) && jsonLoadsOk (stripChars cs0) then
    some (stripChars cs0)
  else
    match fencedSearch (stripChars cs0) with
    | some cap =>
      if jsonLoadsOk cap then some cap else extractTailCD (stripChars cs0)
    | none => extractTailCD (stripChars cs0)

/-- _extract_json on a String. -/
def extractJson (s : String) : Option String :=
  (extractJsonL s.toList).map (fun l => String.mk l)

/-- Modelled from the wording of the spec: the four candidates in their
documented order. -/
def specCandidates (cs : List Char) : List (Option (List Char)) :=
  [if headBrace cs then some cs else none,
   fencedSearch cs, braceSpan cs, repairCandidate cs]

/-- Modelled from the wording of the spec: the first candidate accepted by
json.loads wins; if none parses, nothing is returned. -/
def firstParsing : List (Option (List Char)) → Option (List Char)
  | [] => none
  | c :: rest =>
    match c with
    | some cand => if jsonLoadsOk cand then some cand else firstParsing rest
    | none => firstParsing rest

/-- Modelled from the wording of the spec: trim, then first parsing candidate
in documented order. -/
def extractJsonSpecOrder (cs0 : List Char) : Option (List Char) :=
  if cs0.isEmpty then none
  else firstParsing (specCandidates (stripChars cs0))

theorem extractTailD_eq (cs : List Char) :
    extractTailD cs = firstParsing [repairCandidate cs] := by
  rw [extractTailD]
  cases hR : repairCandidate cs with
  | none => rfl
  | some cand => rfl

theorem extractTailCD_eq (cs : List Char) :
    extractTailCD cs = firstParsing [braceSpan cs, repairCandidate cs] := by
  rw [extractTailCD]
  cases hB : braceSpan cs with
  | none => exact extractTailD_eq cs
  | some cand =>
    show (if jsonLoadsOk cand then some cand else extractTailD cs)
        = (if jsonLoadsOk cand then some cand
            else firstParsing [repairCandidate cs])
    by_cases h : jsonLoadsOk cand = true
    · rw [if_pos h, if_pos h]
    · rw [if_neg h, if_neg h]
      exact extractTailD_eq cs

theorem tailB_eq (cs : List Char) :
    (match fencedSearch cs with
      | some cap => if jsonLoadsOk cap then some cap else extractTailCD cs
      | none => extractTailCD cs)
    = firstParsing [fencedSearch cs, braceSpan cs, repairCandidate cs] := by
  cases hB : fencedSearch cs with
  | none => exact extractTailCD_eq cs
  | some cap =>
    show (if jsonLoadsOk cap then some cap else extractTailCD cs)
        = (if jsonLoadsOk cap then some cap
            else firstParsing [braceSpan cs, repairCandidate cs])
    by_cases h : jsonLoadsOk cap = true
    · rw [if_pos h, if_pos h]
    · rw [if_neg h, if_neg h]
      exact extractTailCD_eq cs

theorem extractJsonL_eq_specOrder (cs0 : List Char) :
    extractJsonL cs0 = extractJsonSpecOrder cs0 := by
  rw [extractJsonL, extractJsonSpecOrder]
  by_cases h0 : cs0.isEmpty = true
  · rw [if_pos h0, if_pos h0]
  · rw [if_neg h0, if_neg h0, specCandidates]
    by_cases hA : headBrace (stripChars cs0) = true
    · rw [hA]
      show (if (true && jsonLoadsOk (stripChars cs0)) = true
            then some (stripChars cs0)
            else match fencedSearch (stripChars cs0) with
              | some cap =>
                if jsonLoadsOk cap then some cap
                else extractTailCD (stripChars cs0)
              | none => extractTailCD (stripChars cs0))
          = (if jsonLoadsOk (stripChars cs0) = true then some (stripChars cs0)
              else firstParsing [fencedSearch (stripChars cs0),
                braceSpan (stripChars cs0), repairCandidate (stripChars cs0)])
      rw [Bool.true_and]
      by_cases hPA : jsonLoadsOk (stripChars cs0) = true
      · rw [if_pos hPA, if_pos hPA]
      · rw [if_neg hPA, if_neg hPA]
        exact tailB_eq (stripChars cs0)
    · have hA2 : headBrace (stripChars cs0) = false := by
        revert hA
        cases headBrace (stripChars cs0) <;> simp
      rw [hA2, Bool.false_and]
      show (if (false = true)
            then some (stripChars cs0)
            else match fencedSearch (stripChars cs0) with
              | some cap =>
                if jsonLoadsOk cap then some cap
                else extractTailCD (stripChars cs0)
              | none => extractTailCD (stripChars cs0))
          = firstParsing [fencedSearch (stripChars cs0),
              braceSpan (stripChars cs0), repairCandidate (stripChars cs0)]
      rw [if_neg (by decide : ¬ (false = true))]
      exact tailB_eq (stripChars cs0)

theorem mem_of_mem_dropWhile (p : Char → Bool) (l : List Char) (x : Char)
    (h : x ∈ l.dropWhile p) : x ∈ l := by
  induction l with
  | nil => simp [List.dropWhile] at h
  | cons a rest ih =>
    rw [List.dropWhile_cons] at h
    by_cases ha : p a = true
    · rw [if_pos ha] at h
      exact List.mem_cons_of_mem a (ih h)
    · rw [if_neg ha] at h
      exact h

theorem fencedSearch_eq_none (cs : List Char) (h : tick ∉ cs) :
    fencedSearch cs = none := by
  induction cs with
  | nil => rfl
  | cons c rest ih =>
    have hc : ¬ c = tick := fun hceq => h (hceq ▸ List.mem_cons_self c rest)
    have hd : dropTicks (c :: rest) = none := by
      cases rest with
      | nil => rfl
      | cons b rest2 =>
        cases rest2 with
        | nil => rfl
        | cons c2 rest3 => simp [dropTicks, hc]
    have h1 : fenceMatchAt (c :: rest) = none := by
      rw [fenceMatchAt, hd]
    rw [fencedSearch, h1]
    exact ih (fun hm => h (List.mem_cons_of_mem _ hm))

theorem braceSpan_eq_none (cs : List Char) (h : '}' ∉ cs) :
    braceSpan cs = none := by
  rw [braceSpan]
  have h2 : ((cs.dropWhile (fun c => c != '{')).reverse.dropWhile
      (fun c => c != '}')) = [] := by
    rw [List.dropWhile_eq_nil_iff]
    intro x hx
    have hxcs : x ∈ cs :=
      mem_of_mem_dropWhile _ cs x (List.mem_reverse.mp hx)
    have hx2 : x ≠ '}' := fun hxe => h (hxe ▸ hxcs)
    simpa using hx2
  rw [h2]
  rfl

theorem repair_recovers (cs : List Char)
    (hHead : headBrace cs = true)
    (hTick : tick ∉ cs)
    (hClose : '}' ∉ cs)
    (hRepair : jsonLoadsOk (rstripCommas (rstripWs cs) ++ ['\n', '}']) = true) :
    (match fencedSearch cs with
      | some cap => if jsonLoadsOk cap then some cap else extractTailCD cs
      | none => extractTailCD cs)
    = some (rstripCommas (rstripWs cs) ++ ['\n', '}']) := by
  rw [fencedSearch_eq_none cs hTick, extractTailCD, braceSpan_eq_none cs hClose,
    extractTailD]
  have hRep : repairCandidate cs =
      some (rstripCommas (rstripWs cs) ++ ['\n', '}']) := by
    cases hcs : cs with
    | nil =>
      rw [hcs] at hHead
      exact absurd hHead (by decide)
    | cons c r =>
      rw [hcs] at hHead
      have hc : c = '{' := by
        have hb : (c == '{') = true := hHead
        exact eq_of_beq hb
      subst hc
      rw [repairCandidate, List.dropWhile_cons]
      simp
  rw [hRep]
  show (if jsonLoadsOk (rstripCommas (rstripWs cs) ++ ['\n', '}']) = true
      then some (rstripCommas (rstripWs cs) ++ ['\n', '}']) else none)
    = some (rstripCommas (rstripWs cs) ++ ['\n', '}'])
  rw [if_pos hRepair]

/-- C7 counterexample: the text has a trailing truncated object that is
well-formed JSON once its trailing comma is dropped and the closing brace
appended (second conjunct), yet extraction returns nothing, because the
repair candidate spans from the FIRST opening brace of the text — here an
earlier non-JSON brace pair — to the end. -/
theorem truncated_trailing_object_not_recovered :
    extractJson "\x7bx\x7d see \x7b\"a\":1," = none ∧
    jsonParses "\x7b\"a\":1\x7d" = true := by
  exact ⟨by decide, by decide⟩

/-- C7 amended: extraction tries the whole-text, fenced-block, brace-span and
truncation-repair candidates in exactly that order and returns the first one
json.loads accepts (nothing when none parses); the repair recovers a
truncated trailing object when the region from the first opening brace of the
trimmed text to the end is the truncated object — in particular when the
trimmed text starts at the object, contains no fence and no closing brace,
and appending a closing brace after dropping trailing whitespace and commas
yields valid JSON. An earlier stray brace can defeat the repair, because the
repair candidate always starts at the first brace of the text. -/
theorem extract_json_candidate_order :
    (∀ s : String,
      extractJson s = (extractJsonSpecOrder s.toList).map (fun l => String.mk l)) ∧
    (∀ s : String,
      s.toList ≠ [] →
      headBrace (stripChars s.toList) = true →
      tick ∉ stripChars s.toList →
      '}' ∉ stripChars s.toList →
      jsonLoadsOk (stripChars s.toList) = false →
      jsonLoadsOk (rstripCommas (rstripWs (stripChars s.toList)) ++ ['\n', '}']) = true →
      extractJson s = some (String.mk
        (rstripCommas (rstripWs (stripChars s.toList)) ++ ['\n', '}']))) := by
  constructor
  · intro s
    rw [extractJson, extractJsonL_eq_specOrder]
  · intro s h0 hHead hTick hClose hNoParse hRepair
    rw [extractJson, extractJsonL]
    have h0b : ¬ s.toList.isEmpty = true := by
      cases hs : s.toList
      · exact absurd hs h0
      · simp
    rw [if_neg h0b]
    have hfalse : (headBrace (stripChars s.toList)
        && jsonLoadsOk (stripChars s.toList)) = false := by
      rw [hNoParse, Bool.and_false]
    rw [hfalse]
    show (if (false = true) then some (stripChars s.toList)
        else match fencedSearch (stripChars s.toList) with
          | some cap =>
            if jsonLoadsOk cap then some cap
            else extractTailCD (stripChars s.toList)
          | none => extractTailCD (stripChars s.toList)).map (fun l => String.mk l)
      = some (String.mk (rstripCommas (rstripWs (stripChars s.toList)) ++ ['\n', '}']))
    rw [if_neg (by decide : ¬ (false = true)),
      repair_recovers _ hHead hTick hClose hRepair]
    rfl

theorem extract_json_candidate_order_witness :
    extractJson "\x7b\"a\": 1," = some "\x7b\"a\": 1\n\x7d" :=
  extract_json_candidate_order.2 "\x7b\"a\": 1,"
    (by decide) (by decide) (by decide) (by decide) (by decide) (by decide)
